import Mathlib

/-!
Shallow embedding of the caching and aggregation engine in
`src/question-1/src/services/dataService.ts` (plus its thin callers in
`controllers/analyticsController.ts` and `index.ts`).

Modelling conventions:
* The service's mutable fields become the record `DataServiceState`; every
  operation takes the state and returns the result, the new state, and the
  list of remote fetches it actually performed.
* `Date.now()` becomes an explicit `now : Int` argument; within one request
  all inner lookups share the timestamp.
* The remote test server becomes a `RemoteOracle` giving, for each endpoint,
  the outcome the network would deliver (`Except Unit _`; `.error` models a
  transport failure / rejected promise).
* JavaScript `Map` objects become association lists with `Map.set` semantics
  (`mapSet`: replace-in-place on hit, append on miss); `Record<string,string>`
  objects become association lists whose order is the object's iteration
  order; `Object.keys` is `List.map Prod.fst`.
* `parseInt(userId, 10)` becomes `parseId : String → Option Int`; `none`
  stands for `NaN` (a legitimate `Map` key under SameValueZero, and
  `x !== NaN` is always true, matching `some _ ≠ none`).
* `Promise.all` over distinct keys is linearised in issue order: the
  single-threaded event loop starts the calls in array order and the model
  resumes them in that order; a rejection carries the first error but the
  state effects of every call are still applied.
* `Array.prototype.sort` with comparator `(a, b) => key(b) - key(a)` is the
  unique stable descending sort by `key`; it is embedded as a stable
  insertion sort `sortKeyDesc`, whose sortedness and stability are proved
  below rather than assumed.
* `Array.prototype.slice(0, limit)` is `jsSlice0`, including the negative
  `limit` behaviour (`length + limit`, clamped at 0).
-/

/-- `types.ts`: a post as cached by the service (`timestamp` is attached by
the cache at fetch time, hence optional). -/
structure Post where
  id : Int
  userid : Int
  content : String
  timestamp : Option Int
deriving DecidableEq, Repr

/-- `types.ts`: a comment. -/
structure Comment where
  id : Int
  postid : Int
  content : String
deriving DecidableEq, Repr

/-- `types.ts`: one entry of the top-users ranking. -/
structure TopUser where
  id : String
  name : String
  postCount : Nat
deriving DecidableEq, Repr

/-- A remote fetch actually performed by the service (one HTTP request). -/
inductive FetchEvent where
  | users : FetchEvent
  | posts : String → FetchEvent
  | comments : Int → FetchEvent
deriving DecidableEq, Repr

/-- The outcomes the remote test server would deliver for each endpoint. -/
structure RemoteOracle where
  fetchUsers : Except Unit (List (String × String))
  fetchPosts : String → Except Unit (List Post)
  fetchComments : Int → Except Unit (List Comment)

/-- `Map.set` semantics on an association list: replace the binding in place
if the key is present, append it otherwise. -/
def mapSet {κ ν : Type} [BEq κ] (k : κ) (v : ν) : List (κ × ν) → List (κ × ν)
  | [] => [(k, v)]
  | (k₁, v₁) :: rest => if k₁ == k then (k, v) :: rest else (k₁, v₁) :: mapSet k v rest

/-- The longest leading run of decimal digits. -/
def leadingDigits : List Char → List Char
  | [] => []
  | c :: cs => if c.isDigit then c :: leadingDigits cs else []

/-- The value of a digit string. -/
def digitsToNat (ds : List Char) : Nat :=
  ds.foldl (fun n c => 10 * n + (c.toNat - 48)) 0

/-- `parseInt(userId, 10)` on the (optionally signed) decimal id strings in
play: the value of the longest leading digit run; `none` models `NaN` (a
legitimate `Map` key under SameValueZero). -/
def parseId (userId : String) : Option Int :=
  match userId.data with
  | '-' :: rest =>
      match leadingDigits rest with
      | [] => none
      | ds => some (-(digitsToNat ds : Int))
  | cs =>
      match leadingDigits cs with
      | [] => none
      | ds => some (digitsToNat ds)

/-- `xs.slice(0, limit)` for an integer `limit`: a negative end index counts
from the end of the array (clamped at 0). -/
def jsSlice0 {α : Type} (lim : Int) (l : List α) : List α :=
  if lim < 0 then l.take (l.length - (-lim).toNat) else l.take lim.toNat

/-- One step of the stable descending insertion sort: `x` goes before the
first element whose key is not larger (so before equal keys, which keeps the
earlier element first overall). -/
def insertKeyDesc {α : Type} (key : α → Int) (x : α) : List α → List α
  | [] => [x]
  | y :: ys => if key y ≤ key x then x :: y :: ys else y :: insertKeyDesc key x ys

/-- The unique stable descending sort by `key`, the semantics of
`arr.sort((a, b) => key(b) - key(a))`. -/
def sortKeyDesc {α : Type} (key : α → Int) : List α → List α
  | [] => []
  | x :: xs => insertKeyDesc key x (sortKeyDesc key xs)

/-- The private fields of the `DataService` singleton. -/
structure DataServiceState where
  usersCache : List (String × String)
  postsCache : List (Option Int × List Post)
  commentsCache : List (Int × List Comment)
  userPostCountCache : List (String × Nat)
  postCommentCountCache : List (Int × Nat)
  allPostsCache : List Post
  lastUsersFetch : Int
  lastPostsFetch : List (Option Int × Int)
  lastCommentsFetch : List (Int × Int)
deriving Repr

/-- The field initialisers of `DataService`. -/
def initState : DataServiceState where
  usersCache := []
  postsCache := []
  commentsCache := []
  userPostCountCache := []
  postCommentCountCache := []
  allPostsCache := []
  lastUsersFetch := 0
  lastPostsFetch := []
  lastCommentsFetch := []

/-- `cacheTTL = 30 * 1000` milliseconds. -/
def cacheTTL : Int := 30 * 1000

/-- `getUsers()`: return the cached directory while fresh (freshness demands
a nonempty cached record); otherwise refetch, falling back to the cached
record on failure when it is nonempty. -/
def getUsers (s : DataServiceState) (now : Int) (oracle : RemoteOracle) :
    Except String (List (String × String)) × DataServiceState × List FetchEvent :=
  if 0 < s.usersCache.length ∧ now - s.lastUsersFetch < cacheTTL then
    (.ok s.usersCache, s, [])
  else
    match oracle.fetchUsers with
    | .ok users =>
        (.ok users, { s with usersCache := users, lastUsersFetch := now }, [.users])
    | .error _ =>
        if 0 < s.usersCache.length then
          (.ok s.usersCache, s, [.users])
        else
          (.error "Failed to fetch users", s, [.users])

/-- The freshness guard of `getUserPosts`. -/
def freshPostsAt (s : DataServiceState) (userId : String) (now : Int) : Prop :=
  (s.postsCache.lookup (parseId userId)).isSome = true ∧
  (s.lastPostsFetch.lookup (parseId userId)).isSome = true ∧
  now - ((s.lastPostsFetch.lookup (parseId userId)).getD 0) < cacheTTL

instance (s : DataServiceState) (userId : String) (now : Int) :
    Decidable (freshPostsAt s userId now) := by
  unfold freshPostsAt; infer_instance

/-- `getUserPosts(userId)`: serve the cached list while fresh; otherwise
refetch, stamp each post with the current time, update the per-user caches
and splice the user's posts into `allPostsCache` (remove-then-append);
on failure fall back to any previously cached list, else throw. -/
def getUserPosts (s : DataServiceState) (userId : String) (now : Int)
    (oracle : RemoteOracle) :
    Except String (List Post) × DataServiceState × List FetchEvent :=
  let userIdNum := parseId userId
  if freshPostsAt s userId now then
    (.ok ((s.postsCache.lookup userIdNum).getD []), s, [])
  else
    match oracle.fetchPosts userId with
    | .ok posts =>
        let postsWithTimestamp := posts.map (fun p => { p with timestamp := some now })
        (.ok postsWithTimestamp,
         { s with
            postsCache := mapSet userIdNum postsWithTimestamp s.postsCache
            lastPostsFetch := mapSet userIdNum now s.lastPostsFetch
            userPostCountCache := mapSet userId postsWithTimestamp.length s.userPostCountCache
            allPostsCache :=
              s.allPostsCache.filter (fun p => some p.userid != userIdNum)
                ++ postsWithTimestamp },
         [.posts userId])
    | .error _ =>
        if (s.postsCache.lookup userIdNum).isSome then
          (.ok ((s.postsCache.lookup userIdNum).getD []), s, [.posts userId])
        else
          (.error ("Failed to fetch posts for user " ++ userId), s, [.posts userId])

/-- The freshness guard of `getPostComments`. -/
def freshCommentsAt (s : DataServiceState) (postId : Int) (now : Int) : Prop :=
  (s.commentsCache.lookup postId).isSome = true ∧
  (s.lastCommentsFetch.lookup postId).isSome = true ∧
  now - ((s.lastCommentsFetch.lookup postId).getD 0) < cacheTTL

instance (s : DataServiceState) (postId : Int) (now : Int) :
    Decidable (freshCommentsAt s postId now) := by
  unfold freshCommentsAt; infer_instance

/-- `getPostComments(postId)`: serve the cached list while fresh; otherwise
refetch and record the comment count; on failure fall back to any previously
cached list, else throw. -/
def getPostComments (s : DataServiceState) (postId : Int) (now : Int)
    (oracle : RemoteOracle) :
    Except String (List Comment) × DataServiceState × List FetchEvent :=
  if freshCommentsAt s postId now then
    (.ok ((s.commentsCache.lookup postId).getD []), s, [])
  else
    match oracle.fetchComments postId with
    | .ok comments =>
        (.ok comments,
         { s with
            commentsCache := mapSet postId comments s.commentsCache
            lastCommentsFetch := mapSet postId now s.lastCommentsFetch
            postCommentCountCache := mapSet postId comments.length s.postCommentCountCache },
         [.comments postId])
    | .error _ =>
        if (s.commentsCache.lookup postId).isSome then
          (.ok ((s.commentsCache.lookup postId).getD []), s, [.comments postId])
        else
          (.error ("Failed to fetch comments for post " ++ toString postId), s,
           [.comments postId])

/-- The `Promise.all(missingUsers.map(...))` loop of `getTopUsers`, linearised
in issue order: each user's posts are fetched (respecting freshness) and the
resulting length — 0 when the lookup throws — is recorded in `counts`. -/
def topUsersCountsLoop (s : DataServiceState) (userIds : List String) (now : Int)
    (oracle : RemoteOracle) (counts : List (String × Nat)) :
    DataServiceState × List (String × Nat) × List FetchEvent :=
  match userIds with
  | [] => (s, counts, [])
  | id :: rest =>
      match getUserPosts s id now oracle with
      | (.ok posts, s₁, ev) =>
          let r := topUsersCountsLoop s₁ rest now oracle (mapSet id posts.length counts)
          (r.1, r.2.1, ev ++ r.2.2)
      | (.error _, s₁, ev) =>
          let r := topUsersCountsLoop s₁ rest now oracle (mapSet id 0 counts)
          (r.1, r.2.1, ev ++ r.2.2)

/-- The ranking rows of `getTopUsers`:
`userIds.map(id => ({id, name: users[id], postCount: postCounts.get(id) || 0}))`. -/
def topUserEntries (users : List (String × String)) (postCounts : List (String × Nat)) :
    List TopUser :=
  (users.map Prod.fst).map
    (fun id => ⟨id, (users.lookup id).getD "", (postCounts.lookup id).getD 0⟩)

/-- The sort key of `getTopUsers` (`(a, b) => b.postCount - a.postCount`). -/
def topUserKey (u : TopUser) : Int := (u.postCount : Int)

/-- `getTopUsers(limit = 5)`: fetch the directory; compute per-user post
counts (from `userPostCountCache` when nonempty, merged over the counts
fetched for users missing from it; otherwise fetched for every user);
stable-sort descending by count and `slice(0, limit)`. -/
def getTopUsers (s : DataServiceState) (lim : Int) (now : Int) (oracle : RemoteOracle) :
    Except String (List TopUser) × DataServiceState × List FetchEvent :=
  match getUsers s now oracle with
  | (.error e, s₁, ev) => (.error e, s₁, ev)
  | (.ok users, s₁, ev₁) =>
      let userIds := users.map Prod.fst
      if 0 < s₁.userPostCountCache.length then
        let missingUsers :=
          userIds.filter (fun id => (s₁.userPostCountCache.lookup id).isNone)
        let r := topUsersCountsLoop s₁ missingUsers now oracle []
        let postCounts :=
          r.1.userPostCountCache.foldl (fun m kv => mapSet kv.1 kv.2 m) r.2.1
        (.ok (jsSlice0 lim (sortKeyDesc topUserKey (topUserEntries users postCounts))),
         r.1, ev₁ ++ r.2.2)
      else
        let r := topUsersCountsLoop s₁ userIds now oracle []
        (.ok (jsSlice0 lim (sortKeyDesc topUserKey (topUserEntries users r.2.1))),
         r.1, ev₁ ++ r.2.2)

/-- The `Promise.all(userIds.map(userId => this.getUserPosts(userId)))` step
of `getPopularPosts` / `getLatestPosts`, linearised in issue order. All state
effects are applied; the first rejection, if any, is reported (`Promise.all`
rejects with the first error while the remaining calls still run). -/
def fetchPostsForAll (s : DataServiceState) (userIds : List String) (now : Int)
    (oracle : RemoteOracle) : DataServiceState × List FetchEvent × Option String :=
  match userIds with
  | [] => (s, [], none)
  | id :: rest =>
      match getUserPosts s id now oracle with
      | (.ok _, s₁, ev) =>
          let r := fetchPostsForAll s₁ rest now oracle
          (r.1, ev ++ r.2.1, r.2.2)
      | (.error e, s₁, ev) =>
          let r := fetchPostsForAll s₁ rest now oracle
          (r.1, ev ++ r.2.1, some e)

/-- One iteration of the comment-count loop in `getPopularPosts`: use the
cached count when present, else fetch the comments and count them, recording
0 when the lookup throws. -/
def commentCountsStep (s : DataServiceState) (counts : List (Int × Nat)) (post : Post)
    (now : Int) (oracle : RemoteOracle) :
    DataServiceState × List (Int × Nat) × List FetchEvent :=
  if (s.postCommentCountCache.lookup post.id).isSome then
    (s, mapSet post.id ((s.postCommentCountCache.lookup post.id).getD 0) counts, [])
  else
    match getPostComments s post.id now oracle with
    | (.ok comments, s₁, ev) => (s₁, mapSet post.id comments.length counts, ev)
    | (.error _, s₁, ev) => (s₁, mapSet post.id 0 counts, ev)

/-- The comment-count loop over a list of posts, linearised in issue order. -/
def commentCountsLoop (s : DataServiceState) (posts : List Post) (now : Int)
    (oracle : RemoteOracle) (counts : List (Int × Nat)) :
    DataServiceState × List (Int × Nat) × List FetchEvent :=
  match posts with
  | [] => (s, counts, [])
  | p :: rest =>
      let r₁ := commentCountsStep s counts p now oracle
      let r₂ := commentCountsLoop r₁.1 rest now oracle r₁.2.1
      (r₂.1, r₂.2.1, r₁.2.2 ++ r₂.2.2)

/-- `batchSize = 10`. -/
def batchSize : Nat := 10

/-- The fuel-indexed batched driver of the comment-count loop: slices of
`batchSize` posts are processed one batch after the other
(`await Promise.all(batch...)` inside a sequential `for` loop). Each
nonempty batch consumes at least one post, so `posts.length` fuel always
suffices; structural recursion on the fuel keeps the definition
kernel-reducible. -/
def commentCountsBatchedAux (now : Int) (oracle : RemoteOracle) :
    Nat → DataServiceState → List Post → List (Int × Nat) →
    DataServiceState × List (Int × Nat) × List FetchEvent
  | 0, s, _, counts => (s, counts, [])
  | fuel + 1, s, posts, counts =>
      match posts with
      | [] => (s, counts, [])
      | p :: rest =>
          let r₁ := commentCountsLoop s ((p :: rest).take batchSize) now oracle counts
          let r₂ := commentCountsBatchedAux now oracle fuel r₁.1
            ((p :: rest).drop batchSize) r₁.2.1
          (r₂.1, r₂.2.1, r₁.2.2 ++ r₂.2.2)

/-- The batched comment-count pass of `getPopularPosts`. -/
def commentCountsBatched (s : DataServiceState) (posts : List Post) (now : Int)
    (oracle : RemoteOracle) (counts : List (Int × Nat)) :
    DataServiceState × List (Int × Nat) × List FetchEvent :=
  commentCountsBatchedAux now oracle posts.length s posts counts

/-- The fold computing `maxCommentCount` over the values of the counts map. -/
def maxCountOf (counts : List (Int × Nat)) : Nat :=
  counts.foldl (fun m kv => if m < kv.2 then kv.2 else m) 0

/-- `getPopularPosts()`: fetch the directory; when `allPostsCache` is empty,
fetch every user's posts (a rejection aborts the call but every state effect
lands); collect per-post comment counts in batches; return every post of the
merged view whose count equals the maximum count. -/
def getPopularPosts (s : DataServiceState) (now : Int) (oracle : RemoteOracle) :
    Except String (List Post) × DataServiceState × List FetchEvent :=
  match getUsers s now oracle with
  | (.error e, s₁, ev) => (.error e, s₁, ev)
  | (.ok users, s₁, ev₁) =>
      let userIds := users.map Prod.fst
      let r :=
        if s₁.allPostsCache.length = 0 then fetchPostsForAll s₁ userIds now oracle
        else (s₁, [], none)
      match r.2.2 with
      | some e => (.error e, r.1, ev₁ ++ r.2.1)
      | none =>
          let allPosts := r.1.allPostsCache
          let rc := commentCountsBatched r.1 allPosts now oracle []
          let maxCommentCount := maxCountOf rc.2.1
          let popularPosts :=
            rc.1.allPostsCache.filter
              (fun post => rc.2.1.lookup post.id == some maxCommentCount)
          (.ok popularPosts, rc.1, ev₁ ++ r.2.1 ++ rc.2.2)

/-- The sort key of `getLatestPosts` (`(a, b) =>
(b.timestamp || 0) - (a.timestamp || 0)`). -/
def latestKey (p : Post) : Int := p.timestamp.getD 0

/-- `getLatestPosts(limit = 5)`: fetch the directory; when `allPostsCache`
is empty, fetch every user's posts; stable-sort the merged view descending
by timestamp and `slice(0, limit)`. -/
def getLatestPosts (s : DataServiceState) (lim : Int) (now : Int)
    (oracle : RemoteOracle) :
    Except String (List Post) × DataServiceState × List FetchEvent :=
  match getUsers s now oracle with
  | (.error e, s₁, ev) => (.error e, s₁, ev)
  | (.ok users, s₁, ev₁) =>
      let userIds := users.map Prod.fst
      let r :=
        if s₁.allPostsCache.length = 0 then fetchPostsForAll s₁ userIds now oracle
        else (s₁, [], none)
      match r.2.2 with
      | some e => (.error e, r.1, ev₁ ++ r.2.1)
      | none =>
          (.ok (jsSlice0 lim (sortKeyDesc latestKey r.1.allPostsCache)),
           r.1, ev₁ ++ r.2.1)

/-- `updateCache()`: when the base URL is configured it performs two raw
fetches whose responses are never processed (`// Process users data ... //`),
and its `try/catch` swallows every error; so on every path it leaves the
whole cache state untouched and returns normally. -/
def updateCache (s : DataServiceState) (baseUrlConfigured : Bool)
    (usersResult : Except Unit (List (String × String)))
    (postsResult : Except Unit (List Post)) :
    Except String Unit × DataServiceState :=
  if !baseUrlConfigured then
    (.ok (), s)
  else
    match usersResult with
    | .error _ => (.ok (), s)
    | .ok _ =>
        match postsResult with
        | .error _ => (.ok (), s)
        | .ok _ => (.ok (), s)

/-! ### Association-list lemmas -/

theorem lookup_cons_self {κ ν : Type} [BEq κ] [LawfulBEq κ] (k : κ) (v : ν)
    (rest : List (κ × ν)) : ((k, v) :: rest).lookup k = some v := by
  simp [List.lookup_cons]

theorem lookup_cons_ne {κ ν : Type} [BEq κ] [LawfulBEq κ] {k₁ k₂ : κ} (v : ν)
    (rest : List (κ × ν)) (h : k₁ ≠ k₂) :
    ((k₂, v) :: rest).lookup k₁ = rest.lookup k₁ := by
  simp [List.lookup_cons, beq_eq_false_iff_ne.mpr h]

theorem lookup_mapSet_self {κ ν : Type} [BEq κ] [LawfulBEq κ] (k : κ) (v : ν)
    (m : List (κ × ν)) : (mapSet k v m).lookup k = some v := by
  induction m with
  | nil => simp [mapSet, lookup_cons_self]
  | cons kv rest ih =>
      obtain ⟨k₁, v₁⟩ := kv
      by_cases h : k₁ = k
      · simp [mapSet, h, lookup_cons_self]
      · simp only [mapSet, beq_iff_eq, h, if_false]
        rw [lookup_cons_ne _ _ (Ne.symm h)]
        exact ih

theorem lookup_mapSet_ne {κ ν : Type} [BEq κ] [LawfulBEq κ] {k k₁ : κ} (v : ν)
    (m : List (κ × ν)) (h : k₁ ≠ k) : (mapSet k v m).lookup k₁ = m.lookup k₁ := by
  induction m with
  | nil => simp [mapSet, lookup_cons_ne _ _ h]
  | cons kv rest ih =>
      obtain ⟨k₂, v₂⟩ := kv
      by_cases h₂ : k₂ = k
      · subst h₂
        simp [mapSet, lookup_cons_ne _ _ h]
      · by_cases h₃ : k₁ = k₂
        · subst h₃
          simp [mapSet, beq_iff_eq, h₂, lookup_cons_self]
        · simp only [mapSet, beq_iff_eq, h₂, if_false]
          rw [lookup_cons_ne _ _ h₃, lookup_cons_ne _ _ h₃]
          exact ih

theorem mem_of_mem_mapSet {κ ν : Type} [BEq κ] [LawfulBEq κ] {k : κ} {v : ν}
    {m : List (κ × ν)} {x : κ × ν} (h : x ∈ mapSet k v m) :
    x = (k, v) ∨ x ∈ m := by
  induction m with
  | nil => simpa [mapSet] using h
  | cons kv rest ih =>
      obtain ⟨k₂, v₂⟩ := kv
      by_cases h₂ : k₂ = k
      · simp only [mapSet, beq_iff_eq, h₂, if_true, List.mem_cons] at h
        rcases h with h | h
        · exact Or.inl h
        · exact Or.inr (List.mem_cons_of_mem _ h)
      · simp only [mapSet, beq_iff_eq, h₂, if_false, List.mem_cons] at h
        rcases h with h | h
        · exact Or.inr (by simp [h])
        · rcases ih h with h | h
          · exact Or.inl h
          · exact Or.inr (List.mem_cons_of_mem _ h)

theorem mem_of_lookup_eq_some {κ ν : Type} [BEq κ] [LawfulBEq κ] {k : κ} {v : ν}
    {m : List (κ × ν)} (h : m.lookup k = some v) : (k, v) ∈ m := by
  induction m with
  | nil => simp [List.lookup_nil] at h
  | cons kv rest ih =>
      obtain ⟨k₂, v₂⟩ := kv
      by_cases h₂ : k = k₂
      · subst h₂
        rw [lookup_cons_self] at h
        simp [Option.some_inj.mp h]
      · rw [lookup_cons_ne _ _ h₂] at h
        exact List.mem_cons_of_mem _ (ih h)

/-! ### Stable descending sort: sortedness, stability, permutation -/

theorem mem_insertKeyDesc {α : Type} (key : α → Int) (x : α) (l : List α) (a : α) :
    a ∈ insertKeyDesc key x l ↔ a = x ∨ a ∈ l := by
  induction l with
  | nil => simp [insertKeyDesc]
  | cons y ys ih =>
      by_cases h : key y ≤ key x
      · simp [insertKeyDesc, h]
      · simp only [insertKeyDesc, h, if_false, List.mem_cons, ih]
        tauto

theorem pairwise_insertKeyDesc {α : Type} (key : α → Int) (x : α) (l : List α)
    (h : List.Pairwise (fun a b => key b ≤ key a) l) :
    List.Pairwise (fun a b => key b ≤ key a) (insertKeyDesc key x l) := by
  induction l with
  | nil => simp [insertKeyDesc]
  | cons y ys ih =>
      rcases List.pairwise_cons.mp h with ⟨hy, hys⟩
      by_cases hk : key y ≤ key x
      · rw [show insertKeyDesc key x (y :: ys) = x :: y :: ys by
          simp [insertKeyDesc, hk]]
        refine List.pairwise_cons.mpr ⟨?_, h⟩
        intro b hb
        rcases List.mem_cons.mp hb with rfl | hb
        · exact hk
        · exact le_trans (hy b hb) hk
      · rw [show insertKeyDesc key x (y :: ys) = y :: insertKeyDesc key x ys by
          simp [insertKeyDesc, hk]]
        refine List.pairwise_cons.mpr ⟨?_, ih hys⟩
        intro b hb
        rcases (mem_insertKeyDesc key x ys b).mp hb with rfl | hb
        · exact le_of_lt (lt_of_not_le hk)
        · exact hy b hb

theorem pairwise_sortKeyDesc {α : Type} (key : α → Int) (l : List α) :
    List.Pairwise (fun a b => key b ≤ key a) (sortKeyDesc key l) := by
  induction l with
  | nil => simp [sortKeyDesc]
  | cons x xs ih => exact pairwise_insertKeyDesc key x _ ih

theorem filter_insertKeyDesc {α : Type} (key : α → Int) (x : α) (l : List α) (c : Int) :
    (insertKeyDesc key x l).filter (fun a => key a == c)
      = (x :: l).filter (fun a => key a == c) := by
  induction l with
  | nil => rfl
  | cons y ys ih =>
      by_cases hk : key y ≤ key x
      · simp [insertKeyDesc, hk]
      · rw [show insertKeyDesc key x (y :: ys) = y :: insertKeyDesc key x ys by
          simp [insertKeyDesc, hk]]
        by_cases hx : key x = c
        · have hy : ¬ ((fun a => key a == c) y) = true := by
            simp only [beq_iff_eq]
            intro h; exact hk (le_of_eq (h.trans hx.symm))
          have hx₂ : ((fun a => key a == c) x) = true := by simp [hx]
          rw [List.filter_cons_of_neg (p := fun a => key a == c) hy, ih,
            List.filter_cons_of_pos (p := fun a => key a == c) hx₂,
            List.filter_cons_of_pos (p := fun a => key a == c) hx₂,
            List.filter_cons_of_neg (p := fun a => key a == c) hy]
        · have hx₂ : ¬ ((fun a => key a == c) x) = true := by simp [hx]
          by_cases hy : ((fun a => key a == c) y) = true
          · rw [List.filter_cons_of_pos (p := fun a => key a == c) hy, ih,
              List.filter_cons_of_neg (p := fun a => key a == c) hx₂,
              List.filter_cons_of_neg (p := fun a => key a == c) hx₂,
              List.filter_cons_of_pos (p := fun a => key a == c) hy]
          · rw [List.filter_cons_of_neg (p := fun a => key a == c) hy, ih,
              List.filter_cons_of_neg (p := fun a => key a == c) hx₂,
              List.filter_cons_of_neg (p := fun a => key a == c) hx₂,
              List.filter_cons_of_neg (p := fun a => key a == c) hy]

theorem filter_sortKeyDesc {α : Type} (key : α → Int) (l : List α) (c : Int) :
    (sortKeyDesc key l).filter (fun a => key a == c)
      = l.filter (fun a => key a == c) := by
  induction l with
  | nil => rfl
  | cons x xs ih =>
      calc (sortKeyDesc key (x :: xs)).filter (fun a => key a == c)
          = ((x :: sortKeyDesc key xs).filter (fun a => key a == c)) :=
            filter_insertKeyDesc key x _ c
        _ = (x :: xs).filter (fun a => key a == c) := by
            by_cases hx : key x = c <;> simp [List.filter, hx, ih]

theorem perm_insertKeyDesc {α : Type} (key : α → Int) (x : α) (l : List α) :
    (insertKeyDesc key x l).Perm (x :: l) := by
  induction l with
  | nil => rfl
  | cons y ys ih =>
      by_cases hk : key y ≤ key x
      · simp [insertKeyDesc, hk]
      · simp only [insertKeyDesc, hk, if_false]
        exact (ih.cons y).trans (List.Perm.swap x y ys)

theorem perm_sortKeyDesc {α : Type} (key : α → Int) (l : List α) :
    (sortKeyDesc key l).Perm l := by
  induction l with
  | nil => rfl
  | cons x xs ih => exact (perm_insertKeyDesc key x _).trans (ih.cons x)

/-! ### Maximum-fold lemmas -/

theorem maxFold_ge_init (counts : List (Int × Nat)) (a : Nat) :
    a ≤ counts.foldl (fun m kv => if m < kv.2 then kv.2 else m) a := by
  induction counts generalizing a with
  | nil => simp
  | cons kv rest ih =>
      simp only [List.foldl_cons]
      by_cases h : a < kv.2
      · simp only [h, if_true]
        exact le_trans (le_of_lt h) (ih kv.2)
      · simp only [h, if_false]
        exact ih a

theorem maxFold_ge_mem {counts : List (Int × Nat)} {kv : Int × Nat} (h : kv ∈ counts)
    (a : Nat) : kv.2 ≤ counts.foldl (fun m kv => if m < kv.2 then kv.2 else m) a := by
  induction counts generalizing a with
  | nil => simp at h
  | cons kv₁ rest ih =>
      rcases List.mem_cons.mp h with rfl | h
      · simp only [List.foldl_cons]
        by_cases h₁ : a < kv.2
        · simp only [h₁, if_true]; exact maxFold_ge_init rest kv.2
        · simp only [h₁, if_false]
          exact le_trans (le_of_not_lt h₁) (maxFold_ge_init rest a)
      · simp only [List.foldl_cons]
        exact ih h _

theorem maxFold_le {counts : List (Int × Nat)} {b : Nat}
    (hmem : ∀ kv ∈ counts, kv.2 ≤ b) {a : Nat} (ha : a ≤ b) :
    counts.foldl (fun m kv => if m < kv.2 then kv.2 else m) a ≤ b := by
  induction counts generalizing a with
  | nil => simpa
  | cons kv rest ih =>
      simp only [List.foldl_cons]
      by_cases h : a < kv.2
      · simp only [h, if_true]
        exact ih (fun kv h => hmem kv (List.mem_cons_of_mem _ h)) (hmem kv (by simp))
      · simp only [h, if_false]
        exact ih (fun kv h => hmem kv (List.mem_cons_of_mem _ h)) ha

/-- The fold computing the maximum of a list of naturals (with base 0). -/
def listMaxNat (l : List Nat) : Nat := l.foldl max 0

theorem foldlMax_ge_init (l : List Nat) (a : Nat) : a ≤ l.foldl max a := by
  induction l generalizing a with
  | nil => simp
  | cons x xs ih => exact le_trans (le_max_left a x) (ih (max a x))

theorem foldlMax_ge_mem {l : List Nat} {v : Nat} (h : v ∈ l) (a : Nat) :
    v ≤ l.foldl max a := by
  induction l generalizing a with
  | nil => simp at h
  | cons x xs ih =>
      rcases List.mem_cons.mp h with rfl | h
      · exact le_trans (le_max_right a v) (foldlMax_ge_init xs _)
      · exact ih h _

theorem foldlMax_le {l : List Nat} {b : Nat} (h : ∀ v ∈ l, v ≤ b) {a : Nat}
    (ha : a ≤ b) : l.foldl max a ≤ b := by
  induction l generalizing a with
  | nil => simpa
  | cons x xs ih =>
      simp only [List.foldl_cons]
      exact ih (fun v hv => h v (List.mem_cons_of_mem _ hv)) (max_le ha (h x (by simp)))

theorem listMaxNat_ge {l : List Nat} {v : Nat} (h : v ∈ l) : v ≤ listMaxNat l :=
  foldlMax_ge_mem h 0

theorem listMaxNat_le {l : List Nat} {b : Nat} (h : ∀ v ∈ l, v ≤ b) :
    listMaxNat l ≤ b :=
  foldlMax_le h (Nat.zero_le b)

/-! ### Operation-level lemmas -/

theorem getUsers_fresh_eq (s : DataServiceState) (now : Int) (oracle : RemoteOracle)
    (hne : s.usersCache ≠ []) (hfr : now - s.lastUsersFetch < cacheTTL) :
    getUsers s now oracle = (.ok s.usersCache, s, []) := by
  unfold getUsers
  rw [if_pos ⟨List.length_pos.mpr hne, hfr⟩]

theorem freshPostsAt_of_lookups {s : DataServiceState} {userId : String} {now : Int}
    {ps : List Post} {tp : Int}
    (hp : s.postsCache.lookup (parseId userId) = some ps)
    (ht : s.lastPostsFetch.lookup (parseId userId) = some tp)
    (hfr : now - tp < cacheTTL) : freshPostsAt s userId now := by
  refine ⟨by simp [hp], by simp [ht], ?_⟩
  rw [ht]
  simpa using hfr

theorem getUserPosts_fresh_eq (s : DataServiceState) (userId : String) (now : Int)
    (oracle : RemoteOracle) {ps : List Post}
    (hp : s.postsCache.lookup (parseId userId) = some ps)
    (hf : freshPostsAt s userId now) :
    getUserPosts s userId now oracle = (.ok ps, s, []) := by
  simp only [getUserPosts]
  rw [if_pos hf, hp]
  rfl

theorem freshCommentsAt_of_lookups {s : DataServiceState} {postId : Int} {now : Int}
    {cs : List Comment} {tc : Int}
    (hp : s.commentsCache.lookup postId = some cs)
    (ht : s.lastCommentsFetch.lookup postId = some tc)
    (hfr : now - tc < cacheTTL) : freshCommentsAt s postId now := by
  refine ⟨by simp [hp], by simp [ht], ?_⟩
  rw [ht]
  simpa using hfr

theorem getPostComments_fresh_eq (s : DataServiceState) (postId : Int) (now : Int)
    (oracle : RemoteOracle) {cs : List Comment}
    (hp : s.commentsCache.lookup postId = some cs)
    (hf : freshCommentsAt s postId now) :
    getPostComments s postId now oracle = (.ok cs, s, []) := by
  simp only [getPostComments]
  rw [if_pos hf, hp]
  rfl

/-- When the guard is stale/absent, the remote call happens: one `.posts`
event is emitted whether it succeeds or fails. -/
theorem getUserPosts_stale_event (s : DataServiceState) (userId : String) (now : Int)
    (oracle : RemoteOracle) (hnf : ¬ freshPostsAt s userId now) :
    (getUserPosts s userId now oracle).2.2 = [.posts userId] := by
  simp only [getUserPosts]
  rw [if_neg hnf]
  rcases h : oracle.fetchPosts userId with e | posts
  · by_cases hs : (s.postsCache.lookup (parseId userId)).isSome <;> simp [hs]
  · rfl

/-- A failed stale lookup with no prior value leaves the state unchanged and
reports the failure. -/
theorem getUserPosts_fail_eq (s : DataServiceState) (userId : String) (now : Int)
    (oracle : RemoteOracle) (hnone : s.postsCache.lookup (parseId userId) = none)
    (hfail : oracle.fetchPosts userId = .error ()) :
    getUserPosts s userId now oracle
      = (.error ("Failed to fetch posts for user " ++ userId), s, [.posts userId]) := by
  have hnf : ¬ freshPostsAt s userId now := by
    intro hf
    have h₁ := hf.1
    rw [hnone] at h₁
    simp at h₁
  simp only [getUserPosts]
  rw [if_neg hnf, hfail]
  simp [hnone]

/-- The success path of `getUserPosts`, written out. -/
theorem getUserPosts_ok_eq (s : DataServiceState) (userId : String) (now : Int)
    (oracle : RemoteOracle) {rp : List Post}
    (hok : oracle.fetchPosts userId = .ok rp) (hnf : ¬ freshPostsAt s userId now) :
    getUserPosts s userId now oracle
      = (.ok (rp.map (fun p => { p with timestamp := some now })),
         { s with
            postsCache := mapSet (parseId userId)
              (rp.map (fun p => { p with timestamp := some now })) s.postsCache
            lastPostsFetch := mapSet (parseId userId) now s.lastPostsFetch
            userPostCountCache := mapSet userId
              (rp.map (fun p => { p with timestamp := some now })).length
              s.userPostCountCache
            allPostsCache :=
              s.allPostsCache.filter (fun p => some p.userid != parseId userId)
                ++ rp.map (fun p => { p with timestamp := some now }) },
         [.posts userId]) := by
  simp only [getUserPosts]
  rw [if_neg hnf, hok]

/-- `getUserPosts` leaves the posts caches untouched at every other key,
and never touches the users directory or comment caches. -/
theorem getUserPosts_frame (s : DataServiceState) (userId : String) (now : Int)
    (oracle : RemoteOracle) {k : Option Int} (hk : k ≠ parseId userId) :
    ((getUserPosts s userId now oracle).2.1).postsCache.lookup k
        = s.postsCache.lookup k ∧
    ((getUserPosts s userId now oracle).2.1).lastPostsFetch.lookup k
        = s.lastPostsFetch.lookup k := by
  simp only [getUserPosts]
  by_cases hf : freshPostsAt s userId now
  · rw [if_pos hf]
    exact ⟨rfl, rfl⟩
  · rw [if_neg hf]
    rcases h : oracle.fetchPosts userId with e | posts
    · by_cases hs : (s.postsCache.lookup (parseId userId)).isSome <;>
        simp [hs, lookup_mapSet_ne _ _ hk]
    · simp [lookup_mapSet_ne _ _ hk]

/-- `getUserPosts` never touches the users directory fields. -/
theorem getUserPosts_users_frame (s : DataServiceState) (userId : String) (now : Int)
    (oracle : RemoteOracle) :
    ((getUserPosts s userId now oracle).2.1).usersCache = s.usersCache ∧
    ((getUserPosts s userId now oracle).2.1).lastUsersFetch = s.lastUsersFetch := by
  simp only [getUserPosts]
  by_cases hf : freshPostsAt s userId now
  · rw [if_pos hf]; exact ⟨rfl, rfl⟩
  · rw [if_neg hf]
    rcases h : oracle.fetchPosts userId with e | posts
    · by_cases hs : (s.postsCache.lookup (parseId userId)).isSome <;> simp [hs]
    · simp

/-- A failed comments lookup with no prior value leaves the state unchanged
and reports the failure. -/
theorem getPostComments_fail_eq (s : DataServiceState) (postId : Int) (now : Int)
    (oracle : RemoteOracle) (hnone : s.commentsCache.lookup postId = none)
    (hfail : oracle.fetchComments postId = .error ()) :
    getPostComments s postId now oracle
      = (.error ("Failed to fetch comments for post " ++ toString postId), s,
         [.comments postId]) := by
  have hnf : ¬ freshCommentsAt s postId now := by
    intro hf
    have h₁ := hf.1
    rw [hnone] at h₁
    simp at h₁
  simp only [getPostComments]
  rw [if_neg hnf, hfail]
  simp [hnone]

/-! ### The counts folds of the aggregation loops -/

/-- The association list produced by recording, for each post in order, a
count that depends only on the post id. -/
def countsFold (f : Int → Nat) (posts : List Post) (acc : List (Int × Nat)) :
    List (Int × Nat) :=
  posts.foldl (fun m p => mapSet p.id (f p.id) m) acc

theorem lookup_countsFold (f : Int → Nat) (posts : List Post)
    (acc : List (Int × Nat)) (k : Int) :
    (countsFold f posts acc).lookup k
      = if k ∈ posts.map Post.id then some (f k) else acc.lookup k := by
  induction posts generalizing acc with
  | nil => simp [countsFold]
  | cons p rest ih =>
      show (countsFold f rest (mapSet p.id (f p.id) acc)).lookup k = _
      rw [ih]
      by_cases hm : k ∈ rest.map Post.id
      · simp [hm]
      · by_cases hk : k = p.id
        · subst hk
          simp [hm, lookup_mapSet_self]
        · simp [hm, hk, lookup_mapSet_ne _ _ hk]

theorem mem_countsFold {f : Int → Nat} {posts : List Post} {acc : List (Int × Nat)}
    {kv : Int × Nat} (h : kv ∈ countsFold f posts acc) :
    (∃ p ∈ posts, kv = (p.id, f p.id)) ∨ kv ∈ acc := by
  induction posts generalizing acc with
  | nil => exact Or.inr h
  | cons p rest ih =>
      rcases ih h with ⟨q, hq, rfl⟩ | h₂
      · exact Or.inl ⟨q, List.mem_cons_of_mem _ hq, rfl⟩
      · rcases mem_of_mem_mapSet h₂ with rfl | h₃
        · exact Or.inl ⟨p, by simp, rfl⟩
        · exact Or.inr h₃

/-- The per-post situations in which one comment-count step records the
id-determined count `f p.id` without touching the state: either the count is
cached, or nothing is cached for the id, the remote call fails, and
`f p.id = 0`. -/
def stepSpecCached (s : DataServiceState) (oracle : RemoteOracle) (f : Int → Nat)
    (p : Post) : Prop :=
  s.postCommentCountCache.lookup p.id = some (f p.id) ∨
  (s.postCommentCountCache.lookup p.id = none ∧ s.commentsCache.lookup p.id = none ∧
   oracle.fetchComments p.id = .error () ∧ f p.id = 0)

theorem commentCountsStep_spec {s : DataServiceState} {oracle : RemoteOracle}
    {f : Int → Nat} {p : Post} (now : Int) (counts : List (Int × Nat))
    (h : stepSpecCached s oracle f p) :
    commentCountsStep s counts p now oracle = (s, mapSet p.id (f p.id) counts, []) ∨
    commentCountsStep s counts p now oracle
      = (s, mapSet p.id (f p.id) counts, [.comments p.id]) := by
  rcases h with h | ⟨h₁, h₂, h₃, h₄⟩
  · left
    simp [commentCountsStep, h]
  · right
    simp only [commentCountsStep, h₁, Option.isSome_none, Bool.false_eq_true, if_false]
    rw [getPostComments_fail_eq s p.id now oracle h₂ h₃, h₄]

theorem commentCountsLoop_spec {s : DataServiceState} {oracle : RemoteOracle}
    {f : Int → Nat} {posts : List Post} (now : Int) (counts : List (Int × Nat))
    (h : ∀ p ∈ posts, stepSpecCached s oracle f p) :
    (commentCountsLoop s posts now oracle counts).1 = s ∧
    (commentCountsLoop s posts now oracle counts).2.1 = countsFold f posts counts := by
  induction posts generalizing counts with
  | nil => exact ⟨rfl, rfl⟩
  | cons p rest ih =>
      have hp := h p (by simp)
      have hrest := fun q hq => h q (List.mem_cons_of_mem _ hq)
      rcases commentCountsStep_spec now counts hp with hs | hs <;>
        simp only [commentCountsLoop, hs] <;>
        exact ih (mapSet p.id (f p.id) counts) hrest

/-- Sequential composition of the comment-count loop over an append. -/
theorem commentCountsLoop_append (now : Int) (oracle : RemoteOracle)
    (l₁ l₂ : List Post) :
    ∀ (s : DataServiceState) (counts : List (Int × Nat)),
    commentCountsLoop s (l₁ ++ l₂) now oracle counts
      = ((commentCountsLoop (commentCountsLoop s l₁ now oracle counts).1 l₂ now oracle
            (commentCountsLoop s l₁ now oracle counts).2.1).1,
         (commentCountsLoop (commentCountsLoop s l₁ now oracle counts).1 l₂ now oracle
            (commentCountsLoop s l₁ now oracle counts).2.1).2.1,
         (commentCountsLoop s l₁ now oracle counts).2.2
           ++ (commentCountsLoop (commentCountsLoop s l₁ now oracle counts).1 l₂ now
                oracle (commentCountsLoop s l₁ now oracle counts).2.1).2.2) := by
  induction l₁ with
  | nil => intro s counts; simp [commentCountsLoop]
  | cons p rest ih =>
      intro s counts
      simp only [List.cons_append, commentCountsLoop, List.append_eq]
      rw [ih]
      simp [List.append_assoc]

/-- Enough fuel makes the batched driver compute the same state, counts and
events as the plain sequential loop (batches are contiguous slices run in
order). -/
theorem commentCountsBatchedAux_eq_loop (now : Int) (oracle : RemoteOracle) :
    ∀ (n : Nat) (posts : List Post), posts.length ≤ n →
    ∀ (s : DataServiceState) (counts : List (Int × Nat)),
    commentCountsBatchedAux now oracle n s posts counts
      = commentCountsLoop s posts now oracle counts := by
  intro n
  induction n with
  | zero =>
      intro posts hl s counts
      have : posts = [] := List.length_eq_zero.mp (Nat.le_zero.mp hl)
      subst this
      rfl
  | succ n ih =>
      intro posts hl s counts
      match posts with
      | [] => rfl
      | p :: rest =>
          show ((commentCountsBatchedAux now oracle n
              (commentCountsLoop s ((p :: rest).take batchSize) now oracle counts).1
              ((p :: rest).drop batchSize)
              (commentCountsLoop s ((p :: rest).take batchSize) now oracle counts).2.1).1,
            _, _) = _
          have hdrop : ((p :: rest).drop batchSize).length ≤ n := by
            simp only [List.length_drop, List.length_cons, batchSize]
            have : rest.length ≤ n := by simpa using hl
            omega
          rw [ih _ hdrop]
          conv_rhs =>
            rw [show (p :: rest) = (p :: rest).take batchSize ++ (p :: rest).drop batchSize
              from (List.take_append_drop _ _).symm]
          rw [commentCountsLoop_append]

/-- The batched comment-count pass equals the sequential loop. -/
theorem commentCountsBatched_eq_loop (now : Int) (oracle : RemoteOracle)
    (posts : List Post) (s : DataServiceState) (counts : List (Int × Nat)) :
    commentCountsBatched s posts now oracle counts
      = commentCountsLoop s posts now oracle counts :=
  commentCountsBatchedAux_eq_loop now oracle posts.length posts le_rfl s counts

/-- If the merged view is empty and every owner fetch returns an empty list,
the ensure step succeeds and leaves the merged view empty. -/
theorem fetchPostsForAll_empty_ok (now : Int) (oracle : RemoteOracle) :
    ∀ (userIds : List String) (s : DataServiceState), s.allPostsCache = [] →
    (∀ id ∈ userIds, oracle.fetchPosts id = .ok []) →
    (fetchPostsForAll s userIds now oracle).1.allPostsCache = [] ∧
    (fetchPostsForAll s userIds now oracle).2.2 = none := by
  intro userIds
  induction userIds with
  | nil => intro s hap _; exact ⟨hap, rfl⟩
  | cons id rest ih =>
      intro s hap hok
      by_cases hf : freshPostsAt s id now
      · obtain ⟨ps, hps⟩ := Option.isSome_iff_exists.mp hf.1
        rw [show fetchPostsForAll s (id :: rest) now oracle
            = ((fetchPostsForAll s rest now oracle).1,
               [] ++ (fetchPostsForAll s rest now oracle).2.1,
               (fetchPostsForAll s rest now oracle).2.2) by
          simp only [fetchPostsForAll, getUserPosts_fresh_eq s id now oracle hps hf]]
        exact ⟨(ih s hap fun y hy => hok y (List.mem_cons_of_mem _ hy)).1,
               (ih s hap fun y hy => hok y (List.mem_cons_of_mem _ hy)).2⟩
      · have hokid := hok id (by simp)
        rw [show fetchPostsForAll s (id :: rest) now oracle
            = ((fetchPostsForAll ((getUserPosts s id now oracle).2.1) rest now oracle).1,
               [.posts id]
                 ++ (fetchPostsForAll ((getUserPosts s id now oracle).2.1) rest now
                      oracle).2.1,
               (fetchPostsForAll ((getUserPosts s id now oracle).2.1) rest now
                  oracle).2.2) by
          simp only [fetchPostsForAll, getUserPosts_ok_eq s id now oracle hokid hf]]
        have hap₁ : ((getUserPosts s id now oracle).2.1).allPostsCache = [] := by
          rw [getUserPosts_ok_eq s id now oracle hokid hf]
          simp [hap]
        exact ⟨(ih _ hap₁ fun y hy => hok y (List.mem_cons_of_mem _ hy)).1,
               (ih _ hap₁ fun y hy => hok y (List.mem_cons_of_mem _ hy)).2⟩

/-- The ensure step issues a posts fetch for every owner that is not fresh
(provided no other processed owner aliases its cache key). -/
theorem fetchPostsForAll_event (now : Int) (oracle : RemoteOracle) (id : String) :
    ∀ (userIds : List String) (s : DataServiceState), id ∈ userIds →
    (∀ y ∈ userIds, parseId y = parseId id → y = id) →
    ¬ freshPostsAt s id now →
    FetchEvent.posts id ∈ (fetchPostsForAll s userIds now oracle).2.1 := by
  intro userIds
  induction userIds with
  | nil => intro s hmem; simp at hmem
  | cons h rest ih =>
      intro s hmem hinj hnf
      rcases hg : getUserPosts s h now oracle with ⟨res, s₁, ev⟩
      have hloop : (fetchPostsForAll s (h :: rest) now oracle).2.1
          = ev ++ (fetchPostsForAll s₁ rest now oracle).2.1 := by
        cases res <;> simp [fetchPostsForAll, hg]
      rw [hloop]
      by_cases heq : h = id
      · subst heq
        have hev : ev = [.posts h] := by
          have := getUserPosts_stale_event s h now oracle hnf
          rw [hg] at this
          exact this
        rw [hev]
        simp
      · have hid : id ∈ rest := by
          rcases List.mem_cons.mp hmem with rfl | hr
          · exact absurd rfl heq
          · exact hr
        have hkey : parseId id ≠ parseId h := by
          intro hk
          exact heq (hinj h (by simp) hk.symm)
        have hfr := getUserPosts_frame s h now oracle hkey
        rw [hg] at hfr
        have hnf₁ : ¬ freshPostsAt s₁ id now := by
          intro hf₁
          exact hnf ⟨by rw [← hfr.1]; exact hf₁.1, by rw [← hfr.2]; exact hf₁.2.1,
            by rw [← hfr.2]; exact hf₁.2.2⟩
        exact List.mem_append_right _
          (ih s₁ hid (fun y hy hk => hinj y (List.mem_cons_of_mem _ hy) hk) hnf₁)

/-- Keys never processed by the top-users count loop keep their bindings. -/
theorem topUsersCountsLoop_lookup_notmem (now : Int) (oracle : RemoteOracle)
    (id : String) :
    ∀ (userIds : List String) (s : DataServiceState) (counts : List (String × Nat)),
    id ∉ userIds →
    (topUsersCountsLoop s userIds now oracle counts).2.1.lookup id = counts.lookup id := by
  intro userIds
  induction userIds with
  | nil => intro s counts _; rfl
  | cons h rest ih =>
      intro s counts hnm
      have hne : id ≠ h := fun hk => hnm (hk ▸ List.mem_cons_self h rest)
      have hnr : id ∉ rest := fun hr => hnm (List.mem_cons_of_mem _ hr)
      rcases hg : getUserPosts s h now oracle with ⟨res, s₁, ev⟩
      cases res <;>
        simp only [topUsersCountsLoop, hg] <;>
        rw [ih s₁ _ hnr, lookup_mapSet_ne _ _ hne]

/-- A failing owner fetch with no stale fallback makes the top-users count
loop record a hard 0 for that owner. -/
theorem topUsersCountsLoop_fail_zero (now : Int) (oracle : RemoteOracle) (idf : String) :
    ∀ (userIds : List String) (s : DataServiceState) (counts : List (String × Nat)),
    idf ∈ userIds →
    (∀ y ∈ userIds, parseId y = parseId idf → y = idf) →
    oracle.fetchPosts idf = .error () →
    s.postsCache.lookup (parseId idf) = none →
    (topUsersCountsLoop s userIds now oracle counts).2.1.lookup idf = some 0 := by
  intro userIds
  induction userIds with
  | nil => intro s counts hmem; simp at hmem
  | cons h rest ih =>
      intro s counts hmem hinj hfail hnone
      by_cases heq : h = idf
      · subst heq
        have hg := getUserPosts_fail_eq s h now oracle hnone hfail
        simp only [topUsersCountsLoop, hg]
        by_cases hr : h ∈ rest
        · exact ih s _ hr (fun y hy hk => hinj y (List.mem_cons_of_mem _ hy) hk)
            hfail hnone
        · rw [topUsersCountsLoop_lookup_notmem now oracle h rest s _ hr,
            lookup_mapSet_self]
      · have hid : idf ∈ rest := by
          rcases List.mem_cons.mp hmem with rfl | hr
          · exact absurd rfl heq
          · exact hr
        have hkey : parseId idf ≠ parseId h := by
          intro hk
          exact heq (hinj h (by simp) hk.symm)
        rcases hg : getUserPosts s h now oracle with ⟨res, s₁, ev⟩
        have hfr := getUserPosts_frame s h now oracle hkey
        rw [hg] at hfr
        have hnone₁ : s₁.postsCache.lookup (parseId idf) = none := by
          rw [hfr.1, hnone]
        cases res <;>
          simp only [topUsersCountsLoop, hg] <;>
          exact ih s₁ _ hid (fun y hy hk => hinj y (List.mem_cons_of_mem _ hy) hk)
            hfail hnone₁

/-- Every event of `getPostComments` is a comments fetch for that post. -/
theorem getPostComments_events (s : DataServiceState) (postId : Int) (now : Int)
    (oracle : RemoteOracle) :
    ∀ e ∈ (getPostComments s postId now oracle).2.2, e = FetchEvent.comments postId := by
  intro e he
  simp only [getPostComments] at he
  by_cases hf : freshCommentsAt s postId now
  · rw [if_pos hf] at he
    simp at he
  · rw [if_neg hf] at he
    rcases h : oracle.fetchComments postId with u | cs <;> rw [h] at he
    · by_cases hs : (s.commentsCache.lookup postId).isSome <;> simp [hs] at he <;>
        exact he
    · simpa using he

/-- Every event of the comment-count loop is a comments fetch. -/
theorem commentCountsLoop_events (now : Int) (oracle : RemoteOracle) :
    ∀ (posts : List Post) (s : DataServiceState) (counts : List (Int × Nat)),
    ∀ e ∈ (commentCountsLoop s posts now oracle counts).2.2,
    ∃ pid, e = FetchEvent.comments pid := by
  intro posts
  induction posts with
  | nil => intro s counts e he; simp [commentCountsLoop] at he
  | cons p rest ih =>
      intro s counts e he
      simp only [commentCountsLoop, List.mem_append] at he
      rcases he with he | he
      · simp only [commentCountsStep] at he
        by_cases hc : (s.postCommentCountCache.lookup p.id).isSome
        · rw [if_pos hc] at he
          simp at he
        · rw [if_neg hc] at he
          rcases hg : getPostComments s p.id now oracle with ⟨res, s₁, ev⟩
          rw [hg] at he
          have hev : ∀ x ∈ ev, x = FetchEvent.comments p.id := by
            intro x hx
            have := getPostComments_events s p.id now oracle x
            rw [hg] at this
            exact this hx
          cases res <;> simp only at he <;> exact ⟨p.id, hev e he⟩
      · exact ih _ _ e he

/-! ### Concrete fixtures used by witnesses and counterexamples -/

/-- A remote source on which every endpoint fails. -/
def failOracle : RemoteOracle where
  fetchUsers := .error ()
  fetchPosts := fun _ => .error ()
  fetchComments := fun _ => .error ()

/-- A remote source whose user directory is empty and whose other endpoints
fail. -/
def emptyUsersOracle : RemoteOracle where
  fetchUsers := .ok []
  fetchPosts := fun _ => .error ()
  fetchComments := fun _ => .error ()

/-- A state in which all three caches hold a fresh value at time 100. -/
def exFreshState : DataServiceState where
  usersCache := [("1", "Alice")]
  postsCache := [(some 1, [⟨10, 1, "p", some 50⟩])]
  commentsCache := [(7, [⟨70, 7, "c"⟩])]
  userPostCountCache := []
  postCommentCountCache := []
  allPostsCache := []
  lastUsersFetch := 90
  lastPostsFetch := [(some 1, 80)]
  lastCommentsFetch := [(7, 85)]

/-- The same caches, long past the TTL at time 100000. -/
def exStaleState : DataServiceState :=
  { exFreshState with
      lastUsersFetch := 0
      lastPostsFetch := [(some 1, 0)]
      lastCommentsFetch := [(7, 0)] }

/-! ### C10 -/

/-- C10: every execution of `updateCache` — configured or not, fetches
succeeding or failing — returns normally and leaves every cache field and
fetch timestamp of the service state unchanged. -/
theorem updateCache_noop (s : DataServiceState) (b : Bool)
    (ur : Except Unit (List (String × String))) (pr : Except Unit (List Post)) :
    updateCache s b ur pr = (.ok (), s) := by
  cases b <;> cases ur <;> cases pr <;> rfl

/-! ### C1 -/

/-- C1 (amended): a lookup whose key holds a fresh stored value returns that
value without invoking the remote fetch and without touching the state — for
the posts and comments keys any stored value counts, while the users
directory must in addition be nonempty (an empty stored directory is treated
as absent and triggers a refetch). -/
theorem freshHit_servesCache_withoutFetch (s : DataServiceState) (now : Int)
    (oracle : RemoteOracle) (userId : String) (postId : Int) (ps : List Post)
    (tp : Int) (cs : List Comment) (tc : Int) :
    (s.usersCache ≠ [] → now - s.lastUsersFetch < cacheTTL →
      getUsers s now oracle = (.ok s.usersCache, s, [])) ∧
    (s.postsCache.lookup (parseId userId) = some ps →
      s.lastPostsFetch.lookup (parseId userId) = some tp →
      now - tp < cacheTTL →
      getUserPosts s userId now oracle = (.ok ps, s, [])) ∧
    (s.commentsCache.lookup postId = some cs →
      s.lastCommentsFetch.lookup postId = some tc →
      now - tc < cacheTTL →
      getPostComments s postId now oracle = (.ok cs, s, [])) := by
  refine ⟨fun h₁ h₂ => getUsers_fresh_eq s now oracle h₁ h₂, ?_, ?_⟩
  · intro hp ht hf
    exact getUserPosts_fresh_eq s userId now oracle hp
      (freshPostsAt_of_lookups hp ht hf)
  · intro hp ht hf
    exact getPostComments_fresh_eq s postId now oracle hp
      (freshCommentsAt_of_lookups hp ht hf)

theorem freshHit_servesCache_withoutFetch_witness :
    getUsers exFreshState 100 failOracle = (.ok [("1", "Alice")], exFreshState, []) ∧
    getUserPosts exFreshState "1" 100 failOracle
      = (.ok [⟨10, 1, "p", some 50⟩], exFreshState, []) ∧
    getPostComments exFreshState 7 100 failOracle
      = (.ok [⟨70, 7, "c"⟩], exFreshState, []) := by
  have h := freshHit_servesCache_withoutFetch exFreshState 100 failOracle "1" 7
    [⟨10, 1, "p", some 50⟩] 80 [⟨70, 7, "c"⟩] 85
  exact ⟨h.1 (by decide) (by decide), h.2.1 (by rfl) (by rfl) (by decide),
    h.2.2 (by rfl) (by rfl) (by decide)⟩

/-- C1 counterexample: the users key holds a previously stored value (the
empty directory, stored by a successful fetch at time 100) that is still
fresh at time 110, yet `getUsers` invokes the remote fetch again. -/
theorem freshEmptyDirectory_is_refetched :
    (getUsers initState 100 emptyUsersOracle).1 = .ok [] ∧
    ((getUsers initState 100 emptyUsersOracle).2.1).usersCache = [] ∧
    ((getUsers initState 100 emptyUsersOracle).2.1).lastUsersFetch = 100 ∧
    (110 : Int) - ((getUsers initState 100 emptyUsersOracle).2.1).lastUsersFetch
      < cacheTTL ∧
    (getUsers ((getUsers initState 100 emptyUsersOracle).2.1) 110
        emptyUsersOracle).2.2 = [.users] := by
  exact ⟨rfl, rfl, rfl, by decide, rfl⟩

/-! ### C2 -/

/-- C2 (amended): when the remote refetch fails, a lookup with a prior value
returns that value (regardless of staleness) and leaves the state unchanged,
and a lookup with no prior value propagates the failure — where for the
users directory "a prior value" means a nonempty stored directory (an empty
stored directory is treated as absent and the failure propagates). -/
theorem staleFallback_and_fetchFailure (s : DataServiceState) (now : Int)
    (oracle : RemoteOracle) (userId : String) (postId : Int) (ps : List Post)
    (cs : List Comment) :
    (oracle.fetchUsers = .error () → s.usersCache ≠ [] →
      (getUsers s now oracle).1 = .ok s.usersCache ∧
      (getUsers s now oracle).2.1 = s) ∧
    (oracle.fetchUsers = .error () → s.usersCache = [] →
      (getUsers s now oracle).1 = .error "Failed to fetch users") ∧
    (oracle.fetchPosts userId = .error () →
      s.postsCache.lookup (parseId userId) = some ps →
      (getUserPosts s userId now oracle).1 = .ok ps ∧
      (getUserPosts s userId now oracle).2.1 = s) ∧
    (oracle.fetchPosts userId = .error () →
      s.postsCache.lookup (parseId userId) = none →
      (getUserPosts s userId now oracle).1
        = .error ("Failed to fetch posts for user " ++ userId)) ∧
    (oracle.fetchComments postId = .error () →
      s.commentsCache.lookup postId = some cs →
      (getPostComments s postId now oracle).1 = .ok cs ∧
      (getPostComments s postId now oracle).2.1 = s) ∧
    (oracle.fetchComments postId = .error () →
      s.commentsCache.lookup postId = none →
      (getPostComments s postId now oracle).1
        = .error ("Failed to fetch comments for post " ++ toString postId)) := by
  refine ⟨?_, ?_, ?_, ?_, ?_, ?_⟩
  · intro hfail hne
    by_cases hf : 0 < s.usersCache.length ∧ now - s.lastUsersFetch < cacheTTL
    · rw [show getUsers s now oracle = (.ok s.usersCache, s, []) by
        unfold getUsers; rw [if_pos hf]]
      exact ⟨rfl, rfl⟩
    · rw [show getUsers s now oracle = (.ok s.usersCache, s, [.users]) by
        unfold getUsers
        rw [if_neg hf, hfail, if_pos (List.length_pos.mpr hne)]]
      exact ⟨rfl, rfl⟩
  · intro hfail hemp
    have hlen : ¬ 0 < s.usersCache.length := by simp [hemp]
    unfold getUsers
    rw [if_neg (fun h => hlen h.1), hfail, if_neg hlen]
  · intro hfail hsome
    by_cases hf : freshPostsAt s userId now
    · rw [getUserPosts_fresh_eq s userId now oracle hsome hf]
      exact ⟨rfl, rfl⟩
    · rw [show getUserPosts s userId now oracle = (.ok ps, s, [.posts userId]) by
        simp only [getUserPosts]
        rw [if_neg hf, hfail]
        simp [hsome]]
      exact ⟨rfl, rfl⟩
  · intro hfail hnone
    rw [getUserPosts_fail_eq s userId now oracle hnone hfail]
  · intro hfail hsome
    by_cases hf : freshCommentsAt s postId now
    · rw [getPostComments_fresh_eq s postId now oracle hsome hf]
      exact ⟨rfl, rfl⟩
    · rw [show getPostComments s postId now oracle = (.ok cs, s, [.comments postId]) by
        simp only [getPostComments]
        rw [if_neg hf, hfail]
        simp [hsome]]
      exact ⟨rfl, rfl⟩
  · intro hfail hnone
    rw [getPostComments_fail_eq s postId now oracle hnone hfail]

theorem staleFallback_and_fetchFailure_witness :
    (getUsers exStaleState 100000 failOracle).1 = .ok [("1", "Alice")] ∧
    (getUsers initState 100 failOracle).1 = .error "Failed to fetch users" ∧
    (getUserPosts exStaleState "1" 100000 failOracle).1
      = .ok [⟨10, 1, "p", some 50⟩] ∧
    (getUserPosts initState "1" 100 failOracle).1
      = .error "Failed to fetch posts for user 1" ∧
    (getPostComments exStaleState 7 100000 failOracle).1 = .ok [⟨70, 7, "c"⟩] ∧
    (getPostComments initState 7 100 failOracle).1
      = .error "Failed to fetch comments for post 7" := by
  have hA := staleFallback_and_fetchFailure exStaleState 100000 failOracle "1" 7
    [⟨10, 1, "p", some 50⟩] [⟨70, 7, "c"⟩]
  have hB := staleFallback_and_fetchFailure initState 100 failOracle "1" 7 [] []
  exact ⟨(hA.1 rfl (by decide)).1, hB.2.1 rfl rfl,
    (hA.2.2.1 rfl (by rfl)).1, hB.2.2.2.1 rfl (by rfl),
    (hA.2.2.2.2.1 rfl (by rfl)).1, hB.2.2.2.2.2 rfl (by rfl)⟩

/-- C2 counterexample: the users key holds a previously stored value (the
empty directory, stored by a successful fetch at time 100), yet when the
refetch fails `getUsers` propagates the failure instead of returning it. -/
theorem emptyDirectory_prior_value_not_served :
    (getUsers initState 100 emptyUsersOracle).1 = .ok [] ∧
    (getUsers ((getUsers initState 100 emptyUsersOracle).2.1) 110 failOracle).1
      = .error "Failed to fetch users" := by
  exact ⟨rfl, rfl⟩

/-! ### C3 and C9: the top-users ranking -/

/-- The merge of the post-count cache into an (initially empty) counts map:
`for (const [userId, count] of this.userPostCountCache.entries())
postCounts.set(userId, count)`. -/
def collapseCounts (cache : List (String × Nat)) : List (String × Nat) :=
  cache.foldl (fun m kv => mapSet kv.1 kv.2 m) []

/-- When the directory is fresh and the post-count cache is nonempty and
covers every directory id, `getTopUsers` fetches nothing and ranks the
cached counts: sort stably descending, then `slice(0, limit)`. -/
theorem getTopUsers_cached_counts_eq (s : DataServiceState) (lim now : Int)
    (oracle : RemoteOracle) (hne : s.usersCache ≠ [])
    (hfresh : now - s.lastUsersFetch < cacheTTL)
    (hcne : s.userPostCountCache ≠ [])
    (hcover : ∀ id ∈ s.usersCache.map Prod.fst,
      (s.userPostCountCache.lookup id).isSome) :
    (getTopUsers s lim now oracle).1
      = .ok (jsSlice0 lim (sortKeyDesc topUserKey
          (topUserEntries s.usersCache (collapseCounts s.userPostCountCache)))) ∧
    (getTopUsers s lim now oracle).2.2 = [] := by
  have hmiss : (s.usersCache.map Prod.fst).filter
      (fun id => (s.userPostCountCache.lookup id).isNone) = [] := by
    rw [List.filter_eq_nil_iff]
    intro a ha
    obtain ⟨v, hv⟩ := Option.isSome_iff_exists.mp (hcover a ha)
    simp [hv]
  simp only [getTopUsers, getUsers_fresh_eq s now oracle hne hfresh]
  rw [if_pos (List.length_pos.mpr hcne), hmiss]
  exact ⟨rfl, rfl⟩

/-- C3: under a fresh directory with fully cached counts, `getTopUsers`
pairs each directory id with its cached count, sorts descending by count
with ties kept in directory iteration order (the sorted list is pairwise
descending and filters to the same sublist as the input at every count
value, and is a permutation of the input), and truncates to the first
`limit` entries. -/
theorem getTopUsers_sorted_stable_truncated (s : DataServiceState) (lim now : Int)
    (oracle : RemoteOracle) (hne : s.usersCache ≠ [])
    (hfresh : now - s.lastUsersFetch < cacheTTL)
    (hcne : s.userPostCountCache ≠ [])
    (hcover : ∀ id ∈ s.usersCache.map Prod.fst,
      (s.userPostCountCache.lookup id).isSome) :
    (getTopUsers s lim now oracle).1
      = .ok (jsSlice0 lim (sortKeyDesc topUserKey
          (topUserEntries s.usersCache (collapseCounts s.userPostCountCache)))) ∧
    (getTopUsers s lim now oracle).2.2 = [] ∧
    List.Pairwise (fun a b => b.postCount ≤ a.postCount)
      (sortKeyDesc topUserKey
        (topUserEntries s.usersCache (collapseCounts s.userPostCountCache))) ∧
    (∀ c : Int,
      (sortKeyDesc topUserKey
          (topUserEntries s.usersCache (collapseCounts s.userPostCountCache))).filter
        (fun u => topUserKey u == c)
      = (topUserEntries s.usersCache (collapseCounts s.userPostCountCache)).filter
        (fun u => topUserKey u == c)) ∧
    (sortKeyDesc topUserKey
        (topUserEntries s.usersCache (collapseCounts s.userPostCountCache))).Perm
      (topUserEntries s.usersCache (collapseCounts s.userPostCountCache)) ∧
    (0 ≤ lim →
      jsSlice0 lim (sortKeyDesc topUserKey
          (topUserEntries s.usersCache (collapseCounts s.userPostCountCache)))
        = (sortKeyDesc topUserKey
            (topUserEntries s.usersCache (collapseCounts s.userPostCountCache))).take
            lim.toNat) := by
  refine ⟨(getTopUsers_cached_counts_eq s lim now oracle hne hfresh hcne hcover).1,
    (getTopUsers_cached_counts_eq s lim now oracle hne hfresh hcne hcover).2,
    ?_, fun c => filter_sortKeyDesc topUserKey _ c, perm_sortKeyDesc topUserKey _, ?_⟩
  · exact (pairwise_sortKeyDesc topUserKey _).imp
      (fun h => by
        simp only [topUserKey] at h
        exact_mod_cast h)
  · intro hlim
    rw [jsSlice0, if_neg (not_lt.mpr hlim)]

/-- The directory and count fixture of the top-N determinism example. -/
def exDirState : DataServiceState :=
  { initState with
      usersCache := [("A", "Alice"), ("B", "Bob"), ("C", "Carol")]
      userPostCountCache := [("A", 3), ("B", 5), ("C", 5)] }

theorem getTopUsers_sorted_stable_truncated_witness :
    (getTopUsers exDirState 2 10 failOracle).1
      = .ok [⟨"B", "Bob", 5⟩, ⟨"C", "Carol", 5⟩] ∧
    (getTopUsers exDirState 2 10 failOracle).2.2 = [] := by
  have h := getTopUsers_sorted_stable_truncated exDirState 2 10 failOracle
    (by decide) (by decide) (by decide) (by decide)
  exact ⟨h.1.trans (by rfl), h.2.1⟩

/-! ### C9 -/

/-- C9 (amended): the limit of `getTopUsers` is never validated — for every
integer limit, also zero and negative ones, the call computes a result
instead of failing, applying the `slice(0, limit)` semantics: a nonnegative
limit keeps the first `limit` entries, zero keeps none, and a negative limit
drops the last `-limit` entries. -/
theorem getTopUsers_accepts_any_int_limit (s : DataServiceState) (lim now : Int)
    (oracle : RemoteOracle) (hne : s.usersCache ≠ [])
    (hfresh : now - s.lastUsersFetch < cacheTTL)
    (hcne : s.userPostCountCache ≠ [])
    (hcover : ∀ id ∈ s.usersCache.map Prod.fst,
      (s.userPostCountCache.lookup id).isSome) :
    (getTopUsers s lim now oracle).1
      = .ok (jsSlice0 lim (sortKeyDesc topUserKey
          (topUserEntries s.usersCache (collapseCounts s.userPostCountCache)))) ∧
    (lim = 0 → (getTopUsers s lim now oracle).1 = .ok []) ∧
    (lim < 0 →
      jsSlice0 lim (sortKeyDesc topUserKey
          (topUserEntries s.usersCache (collapseCounts s.userPostCountCache)))
        = (sortKeyDesc topUserKey
            (topUserEntries s.usersCache (collapseCounts s.userPostCountCache))).take
          ((topUserEntries s.usersCache (collapseCounts s.userPostCountCache)).length
            - (-lim).toNat)) := by
  refine ⟨(getTopUsers_cached_counts_eq s lim now oracle hne hfresh hcne hcover).1,
    ?_, ?_⟩
  · intro h0
    subst h0
    rw [(getTopUsers_cached_counts_eq s 0 now oracle hne hfresh hcne hcover).1]
    rfl
  · intro hneg
    rw [jsSlice0, if_pos hneg,
      (perm_sortKeyDesc topUserKey
        (topUserEntries s.usersCache (collapseCounts s.userPostCountCache))).length_eq]

theorem getTopUsers_accepts_any_int_limit_witness :
    (getTopUsers exDirState 0 10 failOracle).1 = .ok [] ∧
    (getTopUsers exDirState (-1) 10 failOracle).1
      = .ok [⟨"B", "Bob", 5⟩, ⟨"C", "Carol", 5⟩] := by
  have h0 := getTopUsers_accepts_any_int_limit exDirState 0 10 failOracle
    (by decide) (by decide) (by decide) (by decide)
  have hm := getTopUsers_accepts_any_int_limit exDirState (-1) 10 failOracle
    (by decide) (by decide) (by decide) (by decide)
  exact ⟨h0.2.1 rfl, hm.1.trans (by rfl)⟩

/-- C9 counterexample: a supplied limit of 0 — not a positive integer — does
not produce a validation error; `getTopUsers` computes normally and returns
an empty ranking (and `-1` returns all but the last entry). -/
theorem zero_limit_returns_ok_empty :
    (getTopUsers exDirState 0 10 failOracle).1 = .ok [] ∧
    (getTopUsers exDirState (-1) 10 failOracle).1
      = .ok [⟨"B", "Bob", 5⟩, ⟨"C", "Carol", 5⟩] := by
  exact ⟨rfl, rfl⟩

/-! ### C5: the latest-posts view -/

/-- C5: with a fresh directory and a nonempty merged view, `getLatestPosts`
fetches nothing and returns the merged view stably sorted descending by the
cache-assigned timestamp, truncated to the first `limit` entries. -/
theorem getLatestPosts_recent_ordering (s : DataServiceState) (lim now : Int)
    (oracle : RemoteOracle) (hne : s.usersCache ≠ [])
    (hfresh : now - s.lastUsersFetch < cacheTTL)
    (hap : s.allPostsCache ≠ []) :
    (getLatestPosts s lim now oracle).1
      = .ok (jsSlice0 lim (sortKeyDesc latestKey s.allPostsCache)) ∧
    (getLatestPosts s lim now oracle).2.2 = [] ∧
    List.Pairwise (fun a b => latestKey b ≤ latestKey a)
      (sortKeyDesc latestKey s.allPostsCache) ∧
    (∀ c : Int,
      (sortKeyDesc latestKey s.allPostsCache).filter (fun p => latestKey p == c)
        = s.allPostsCache.filter (fun p => latestKey p == c)) ∧
    (sortKeyDesc latestKey s.allPostsCache).Perm s.allPostsCache ∧
    (0 ≤ lim →
      jsSlice0 lim (sortKeyDesc latestKey s.allPostsCache)
        = (sortKeyDesc latestKey s.allPostsCache).take lim.toNat) := by
  have hlen : ¬ s.allPostsCache.length = 0 :=
    fun h => hap (List.length_eq_zero.mp h)
  refine ⟨?_, ?_, pairwise_sortKeyDesc latestKey _,
    fun c => filter_sortKeyDesc latestKey _ c, perm_sortKeyDesc latestKey _, ?_⟩
  · simp only [getLatestPosts, getUsers_fresh_eq s now oracle hne hfresh]
    rw [if_neg hlen]
  · simp only [getLatestPosts, getUsers_fresh_eq s now oracle hne hfresh]
    rw [if_neg hlen]
    rfl
  · intro hlim
    rw [jsSlice0, if_neg (not_lt.mpr hlim)]

/-- The three posts of the latest-ordering example. -/
def exLatestState : DataServiceState :=
  { exDirState with
      allPostsCache := [⟨1, 1, "a", some 100⟩, ⟨2, 1, "b", some 300⟩,
        ⟨3, 1, "c", some 200⟩] }

theorem getLatestPosts_recent_ordering_witness :
    (getLatestPosts exLatestState 2 10 failOracle).1
      = .ok [⟨2, 1, "b", some 300⟩, ⟨3, 1, "c", some 200⟩] ∧
    (getLatestPosts exLatestState 2 10 failOracle).2.2 = [] := by
  have h := getLatestPosts_recent_ordering exLatestState 2 10 failOracle
    (by decide) (by decide) (by decide)
  exact ⟨h.1.trans (by rfl), h.2.1⟩

/-! ### C4: the popular-posts view -/

/-- C4: with a fresh directory, `getPopularPosts` returns exactly the posts
of the merged view whose comment count equals the maximum comment count over
the merged view (every tied post is returned); when the merged view on which
the aggregation runs is empty, the maximum is 0 and the result is empty. -/
theorem getPopularPosts_max_tie_set (s : DataServiceState) (now : Int)
    (oracle : RemoteOracle) (hne : s.usersCache ≠ [])
    (hfresh : now - s.lastUsersFetch < cacheTTL) :
    ( s.allPostsCache ≠ [] →
      (∀ p ∈ s.allPostsCache, (s.postCommentCountCache.lookup p.id).isSome) →
      (getPopularPosts s now oracle).1
        = .ok (s.allPostsCache.filter
            (fun p => (s.postCommentCountCache.lookup p.id).getD 0
              == listMaxNat (s.allPostsCache.map
                  (fun q => (s.postCommentCountCache.lookup q.id).getD 0)))) ∧
      (∀ p : Post,
        p ∈ s.allPostsCache.filter
            (fun p => (s.postCommentCountCache.lookup p.id).getD 0
              == listMaxNat (s.allPostsCache.map
                  (fun q => (s.postCommentCountCache.lookup q.id).getD 0)))
        ↔ p ∈ s.allPostsCache ∧
          (s.postCommentCountCache.lookup p.id).getD 0
            = listMaxNat (s.allPostsCache.map
                (fun q => (s.postCommentCountCache.lookup q.id).getD 0))) ) ∧
    ( s.allPostsCache = [] →
      (∀ id ∈ s.usersCache.map Prod.fst, oracle.fetchPosts id = .ok []) →
      (getPopularPosts s now oracle).1 = .ok [] ) := by
  constructor
  · intro hap hcov
    set f : Int → Nat := fun k => (s.postCommentCountCache.lookup k).getD 0 with hf
    have hspec : ∀ p ∈ s.allPostsCache, stepSpecCached s oracle f p := by
      intro p hp
      obtain ⟨v, hv⟩ := Option.isSome_iff_exists.mp (hcov p hp)
      left
      rw [hv, hf]
      simp [hv]
    have hloop := commentCountsLoop_spec (f := f) now [] hspec
    have hlk : ∀ p ∈ s.allPostsCache,
        (countsFold f s.allPostsCache []).lookup p.id = some (f p.id) := by
      intro p hp
      rw [lookup_countsFold, if_pos (List.mem_map_of_mem Post.id hp)]
    have hmax : maxCountOf (countsFold f s.allPostsCache [])
        = listMaxNat (s.allPostsCache.map (fun q => f q.id)) := by
      apply le_antisymm
      · apply maxFold_le
        · intro kv hkv
          rcases mem_countsFold hkv with ⟨p, hp, rfl⟩ | habs
          · exact listMaxNat_ge (List.mem_map_of_mem (fun q => f q.id) hp)
          · simp at habs
        · exact Nat.zero_le _
      · apply listMaxNat_le
        intro v hv
        obtain ⟨p, hp, rfl⟩ := List.mem_map.mp hv
        exact maxFold_ge_mem (mem_of_lookup_eq_some (hlk p hp)) 0
    have hfilter : ∀ p ∈ s.allPostsCache,
        ((countsFold f s.allPostsCache []).lookup p.id
            == some (maxCountOf (countsFold f s.allPostsCache []))) =
          (f p.id == listMaxNat (s.allPostsCache.map (fun q => f q.id))) := by
      intro p hp
      rw [hlk p hp, hmax]
      rfl
    have hlen : ¬ s.allPostsCache.length = 0 :=
      fun h => hap (List.length_eq_zero.mp h)
    constructor
    · simp only [getPopularPosts, getUsers_fresh_eq s now oracle hne hfresh]
      rw [if_neg hlen, commentCountsBatched_eq_loop, hloop.1, hloop.2]
      exact congrArg Except.ok (List.filter_congr hfilter)
    · intro p
      rw [List.mem_filter]
      constructor
      · rintro ⟨hp, hbe⟩
        exact ⟨hp, by simpa using hbe⟩
      · rintro ⟨hp, heq⟩
        exact ⟨hp, by simpa using heq⟩
  · intro hap hok
    have hfe := fetchPostsForAll_empty_ok now oracle (s.usersCache.map Prod.fst) s
      hap hok
    simp only [getPopularPosts, getUsers_fresh_eq s now oracle hne hfresh]
    rw [if_pos (by simp [hap])]
    rcases hr : fetchPostsForAll s (s.usersCache.map Prod.fst) now oracle
      with ⟨s₂, ev₂, err⟩
    rw [hr] at hfe
    obtain ⟨hap₂, herr⟩ := hfe
    simp only at hap₂ herr
    subst herr
    simp only
    rw [commentCountsBatched_eq_loop, hap₂]
    simp [commentCountsLoop, hap₂]

/-- Posts with comment counts `[2, 5, 5]` over the example directory. -/
def exPopularState : DataServiceState :=
  { exDirState with
      allPostsCache := [⟨1, 1, "a", some 100⟩, ⟨2, 1, "b", some 300⟩,
        ⟨3, 1, "c", some 200⟩]
      postCommentCountCache := [(1, 2), (2, 5), (3, 5)] }

/-- A remote source whose posts endpoint returns an empty list for every
owner. -/
def okEmptyPostsOracle : RemoteOracle where
  fetchUsers := .ok []
  fetchPosts := fun _ => .ok []
  fetchComments := fun _ => .error ()

theorem getPopularPosts_max_tie_set_witness :
    (getPopularPosts exPopularState 10 failOracle).1
      = .ok [⟨2, 1, "b", some 300⟩, ⟨3, 1, "c", some 200⟩] ∧
    (getPopularPosts exDirState 10 okEmptyPostsOracle).1 = .ok [] := by
  have h₁ := getPopularPosts_max_tie_set exPopularState 10 failOracle
    (by decide) (by decide)
  have h₂ := getPopularPosts_max_tie_set exDirState 10 okEmptyPostsOracle
    (by decide) (by decide)
  exact ⟨((h₁.1 (by decide) (by decide)).1).trans (by rfl),
    h₂.2 rfl (fun id _ => rfl)⟩

/-! ### C6: owner-level replacement and idempotence of the merge -/

/-- C6: a successful refresh of owner `userId` replaces the owner's prior
contribution to the merged view by remove-then-append; if the fetched posts
carry distinct ids and belong to that owner, the no-duplicate-per-owner
invariant of the merged view is preserved; and re-running the refresh within
the TTL is a pure cache hit that returns the same posts and leaves the state
(in particular the merged view) unchanged, whatever the remote would answer
the second time. -/
theorem getUserPosts_replace_and_idempotent (s : DataServiceState) (userId : String)
    (now t₂ : Int) (oracle oracle₂ : RemoteOracle) (rp : List Post)
    (hok : oracle.fetchPosts userId = .ok rp)
    (hnf : ¬ freshPostsAt s userId now) :
    ((getUserPosts s userId now oracle).2.1).allPostsCache
      = s.allPostsCache.filter (fun p => some p.userid != parseId userId)
          ++ rp.map (fun p => { p with timestamp := some now }) ∧
    ((rp.map Post.id).Nodup →
      (∀ p ∈ rp, some p.userid = parseId userId) →
      List.Pairwise (fun p q => p.id ≠ q.id ∨ p.userid ≠ q.userid) s.allPostsCache →
      List.Pairwise (fun p q => p.id ≠ q.id ∨ p.userid ≠ q.userid)
        ((getUserPosts s userId now oracle).2.1).allPostsCache) ∧
    (t₂ - now < cacheTTL →
      getUserPosts ((getUserPosts s userId now oracle).2.1) userId t₂ oracle₂
        = (.ok (rp.map (fun p => { p with timestamp := some now })),
           (getUserPosts s userId now oracle).2.1, [])) := by
  have hG := getUserPosts_ok_eq s userId now oracle hok hnf
  refine ⟨by rw [hG], ?_, ?_⟩
  · intro hnd hown hpw
    rw [hG]
    simp only
    rw [List.pairwise_append]
    refine ⟨hpw.sublist (List.filter_sublist _), ?_, ?_⟩
    · rw [List.pairwise_map]
      refine (List.pairwise_map.mp hnd).imp ?_
      intro a b hab
      exact Or.inl hab
    · intro a ha b hb
      obtain ⟨haMem, haKeep⟩ := List.mem_filter.mp ha
      obtain ⟨q, hq, rfl⟩ := List.mem_map.mp hb
      refine Or.inr (fun hu => ?_)
      have hne₂ : some a.userid ≠ parseId userId := by
        simpa [bne_iff_ne] using haKeep
      exact hne₂ (by rw [show a.userid = q.userid from hu]; exact hown q hq)
  · intro hlt
    have hsome : ((getUserPosts s userId now oracle).2.1).postsCache.lookup
        (parseId userId) = some (rp.map (fun p => { p with timestamp := some now })) := by
      rw [hG]
      exact lookup_mapSet_self _ _ _
    have htime : ((getUserPosts s userId now oracle).2.1).lastPostsFetch.lookup
        (parseId userId) = some now := by
      rw [hG]
      exact lookup_mapSet_self _ _ _
    exact getUserPosts_fresh_eq _ userId t₂ oracle₂ hsome
      (freshPostsAt_of_lookups hsome htime hlt)

/-- A remote source returning two distinct posts of owner 7. -/
def exPostsOracle : RemoteOracle where
  fetchUsers := .ok []
  fetchPosts := fun _ => .ok [⟨1, 7, "a", none⟩, ⟨2, 7, "b", none⟩]
  fetchComments := fun _ => .error ()

theorem getUserPosts_replace_and_idempotent_witness :
    ((getUserPosts initState "7" 100 exPostsOracle).2.1).allPostsCache
      = [⟨1, 7, "a", some 100⟩, ⟨2, 7, "b", some 100⟩] ∧
    List.Pairwise (fun p q => p.id ≠ q.id ∨ p.userid ≠ q.userid)
      ((getUserPosts initState "7" 100 exPostsOracle).2.1).allPostsCache ∧
    getUserPosts ((getUserPosts initState "7" 100 exPostsOracle).2.1) "7" 110
        failOracle
      = (.ok [⟨1, 7, "a", some 100⟩, ⟨2, 7, "b", some 100⟩],
         (getUserPosts initState "7" 100 exPostsOracle).2.1, []) := by
  have h := getUserPosts_replace_and_idempotent initState "7" 100 110 exPostsOracle
    failOracle [⟨1, 7, "a", none⟩, ⟨2, 7, "b", none⟩] rfl (by decide)
  exact ⟨h.1.trans (by rfl), h.2.1 (by decide) (by decide) (by decide),
    h.2.2 (by decide)⟩

/-! ### C7: when the ensure step runs -/

/-- A remote source on which every endpoint would answer. -/
def availOracle : RemoteOracle where
  fetchUsers := .ok [("1", "U1"), ("2", "U2")]
  fetchPosts := fun _ => .ok [⟨9, 2, "x", none⟩]
  fetchComments := fun _ => .ok []

/-- Owner 2 is in the fresh directory but was never fetched, while the
merged view already holds a post of owner 1 with a cached comment count. -/
def exStaleOwnerState : DataServiceState :=
  { initState with
      usersCache := [("1", "U1"), ("2", "U2")]
      lastUsersFetch := 995
      allPostsCache := [⟨1, 1, "a", some 100⟩]
      postCommentCountCache := [(1, 0)] }

/-- Two fresh directory owners with nothing else cached. -/
def exEmptyViewState : DataServiceState :=
  { initState with
      usersCache := [("1", "U1"), ("2", "U2")]
      lastUsersFetch := 995 }

/-- C7 counterexample: owner 2 is present in the directory and does not
satisfy freshness (it was never fetched), yet because the merged view is
nonempty both aggregations issue no remote fetch at all — the engine does
not ensure every directory owner's posts are fetched. -/
theorem staleOwner_not_refetched_when_view_nonempty :
    ("2", "U2") ∈ exStaleOwnerState.usersCache ∧
    exStaleOwnerState.postsCache.lookup (parseId "2") = none ∧
    ¬ freshPostsAt exStaleOwnerState "2" 1000 ∧
    (getPopularPosts exStaleOwnerState 1000 availOracle).2.2 = [] ∧
    (getLatestPosts exStaleOwnerState 2 1000 availOracle).2.2 = [] := by
  exact ⟨by decide, rfl, by decide, rfl, rfl⟩

/-- C7 (amended): the aggregations run the per-owner ensure step only when
the merged view is empty — in that case every non-fresh directory owner is
fetched (one posts request each, provided no other directory id aliases its
cache key); when the merged view is nonempty no owner is fetched at all and
the aggregation is computed over the merged view as it stands. -/
theorem ensure_only_when_merged_empty (s : DataServiceState) (now lim : Int)
    (oracle : RemoteOracle) (hne : s.usersCache ≠ [])
    (hfresh : now - s.lastUsersFetch < cacheTTL) :
    ( s.allPostsCache = [] →
      ∀ id ∈ s.usersCache.map Prod.fst,
        (∀ y ∈ s.usersCache.map Prod.fst, parseId y = parseId id → y = id) →
        ¬ freshPostsAt s id now →
        FetchEvent.posts id ∈ (getPopularPosts s now oracle).2.2 ∧
        FetchEvent.posts id ∈ (getLatestPosts s lim now oracle).2.2 ) ∧
    ( s.allPostsCache ≠ [] →
      (∀ uid, FetchEvent.posts uid ∉ (getPopularPosts s now oracle).2.2) ∧
      (getLatestPosts s lim now oracle).2.2 = [] ) := by
  constructor
  · intro hap id hid hinj hnf
    have hev := fetchPostsForAll_event now oracle id (s.usersCache.map Prod.fst) s
      hid hinj hnf
    constructor
    · simp only [getPopularPosts, getUsers_fresh_eq s now oracle hne hfresh]
      rw [if_pos (by simp [hap])]
      rcases hr : fetchPostsForAll s (s.usersCache.map Prod.fst) now oracle
        with ⟨s₂, ev₂, err⟩
      rw [hr] at hev
      cases err
      · simp only
        exact List.mem_append_left _ (List.mem_append_right _ hev)
      · simp only
        exact List.mem_append_right _ hev
    · simp only [getLatestPosts, getUsers_fresh_eq s now oracle hne hfresh]
      rw [if_pos (by simp [hap])]
      rcases hr : fetchPostsForAll s (s.usersCache.map Prod.fst) now oracle
        with ⟨s₂, ev₂, err⟩
      rw [hr] at hev
      cases err
      · simpa using hev
      · simpa using hev
  · intro hap
    have hlen : ¬ s.allPostsCache.length = 0 :=
      fun h => hap (List.length_eq_zero.mp h)
    constructor
    · intro uid hmem
      simp only [getPopularPosts, getUsers_fresh_eq s now oracle hne hfresh] at hmem
      rw [if_neg hlen, commentCountsBatched_eq_loop] at hmem
      simp only [List.nil_append, List.append_nil] at hmem
      obtain ⟨pid, hpid⟩ := commentCountsLoop_events now oracle s.allPostsCache s []
        _ hmem
      exact FetchEvent.noConfusion hpid
    · simp only [getLatestPosts, getUsers_fresh_eq s now oracle hne hfresh]
      rw [if_neg hlen]
      rfl

theorem ensure_only_when_merged_empty_witness :
    FetchEvent.posts "2" ∈ (getPopularPosts exEmptyViewState 1000 availOracle).2.2 ∧
    (∀ uid, FetchEvent.posts uid ∉
      (getPopularPosts exStaleOwnerState 1000 availOracle).2.2) ∧
    (getLatestPosts exStaleOwnerState 2 1000 availOracle).2.2 = [] := by
  have h₁ := ensure_only_when_merged_empty exEmptyViewState 1000 2 availOracle
    (by decide) (by decide)
  have h₂ := ensure_only_when_merged_empty exStaleOwnerState 1000 2 availOracle
    (by decide) (by decide)
  exact ⟨(h₁.1 rfl "2" (by decide) (by decide) (by decide)).1,
    (h₂.2 (by decide)).1, (h₂.2 (by decide)).2⟩

/-! ### C8: per-id degradation to zero -/

/-- C8: given a fresh directory, a hard remote failure for one id — a
comments fetch with nothing cached during the batched count pass, or an
owner fetch with no stale fallback during the top-N computation — records a
count of 0 for that id, leaves every other id's count intact, and never
aborts the batch, the following batches, or the aggregation, which still
returns a result. -/
theorem per_id_failures_degrade_to_zero (s : DataServiceState) (now lim : Int)
    (oracle : RemoteOracle) (pid : Int) (idf : String)
    (hne : s.usersCache ≠ []) (hfresh : now - s.lastUsersFetch < cacheTTL) :
    ( s.allPostsCache ≠ [] →
      pid ∈ s.allPostsCache.map Post.id →
      s.postCommentCountCache.lookup pid = none →
      s.commentsCache.lookup pid = none →
      oracle.fetchComments pid = .error () →
      (∀ p ∈ s.allPostsCache, p.id ≠ pid →
        (s.postCommentCountCache.lookup p.id).isSome) →
      ((commentCountsBatched s s.allPostsCache now oracle []).2.1.lookup pid
          = some 0 ∧
       (∀ p ∈ s.allPostsCache, p.id ≠ pid →
         (commentCountsBatched s s.allPostsCache now oracle []).2.1.lookup p.id
           = some ((s.postCommentCountCache.lookup p.id).getD 0)) ∧
       ∃ l, (getPopularPosts s now oracle).1 = .ok l) ) ∧
    ( s.userPostCountCache = [] →
      idf ∈ s.usersCache.map Prod.fst →
      (∀ y ∈ s.usersCache.map Prod.fst, parseId y = parseId idf → y = idf) →
      oracle.fetchPosts idf = .error () →
      s.postsCache.lookup (parseId idf) = none →
      ((topUsersCountsLoop s (s.usersCache.map Prod.fst) now oracle []).2.1.lookup
          idf = some 0 ∧
       TopUser.mk idf ((s.usersCache.lookup idf).getD "") 0
         ∈ topUserEntries s.usersCache
             (topUsersCountsLoop s (s.usersCache.map Prod.fst) now oracle []).2.1 ∧
       ∃ l, (getTopUsers s lim now oracle).1 = .ok l) ) := by
  constructor
  · intro hap hpidmem hcc hcm hfailC hoth
    have hspec : ∀ p ∈ s.allPostsCache,
        stepSpecCached s oracle
          (fun k => if k = pid then 0 else (s.postCommentCountCache.lookup k).getD 0)
          p := by
      intro p hp
      by_cases hpe : p.id = pid
      · right
        rw [hpe]
        exact ⟨hcc, hcm, hfailC, by simp⟩
      · left
        obtain ⟨v, hv⟩ := Option.isSome_iff_exists.mp (hoth p hp hpe)
        rw [hv]
        simp [hpe, hv]
    have hloop := commentCountsLoop_spec
      (f := fun k => if k = pid then 0 else (s.postCommentCountCache.lookup k).getD 0)
      now [] hspec
    have hlen : ¬ s.allPostsCache.length = 0 :=
      fun h => hap (List.length_eq_zero.mp h)
    refine ⟨?_, ?_, ?_⟩
    · rw [commentCountsBatched_eq_loop, hloop.2, lookup_countsFold, if_pos hpidmem]
      simp
    · intro p hp hpe
      rw [commentCountsBatched_eq_loop, hloop.2, lookup_countsFold,
        if_pos (List.mem_map_of_mem Post.id hp)]
      simp [hpe]
    · simp only [getPopularPosts, getUsers_fresh_eq s now oracle hne hfresh]
      rw [if_neg hlen]
      exact ⟨_, rfl⟩
  · intro hcache hidf hinj hfailP hnostale
    have hzero := topUsersCountsLoop_fail_zero now oracle idf
      (s.usersCache.map Prod.fst) s [] hidf hinj hfailP hnostale
    refine ⟨hzero, ?_, ?_⟩
    · have hmem := List.mem_map_of_mem
        (fun id => TopUser.mk id ((s.usersCache.lookup id).getD "")
          (((topUsersCountsLoop s (s.usersCache.map Prod.fst) now oracle
              []).2.1.lookup id).getD 0)) hidf
      simp only at hmem
      rw [hzero] at hmem
      simp only [topUserEntries]
      simpa using hmem
    · have hlen : ¬ 0 < s.userPostCountCache.length := by simp [hcache]
      simp only [getTopUsers, getUsers_fresh_eq s now oracle hne hfresh]
      rw [if_neg hlen]
      exact ⟨_, rfl⟩

/-- Posts of owner 1 where post 2 has no cached count and its comments fetch
fails; owner 2's posts fetch fails with no stale fallback. -/
def exDegradeState : DataServiceState :=
  { initState with
      usersCache := [("1", "U1"), ("2", "U2")]
      lastUsersFetch := 995
      allPostsCache := [⟨1, 1, "a", some 100⟩, ⟨2, 1, "b", some 100⟩]
      postCommentCountCache := [(1, 4)] }

/-- Owner 1 answers, owner 2 and every comments endpoint fail. -/
def exDegradeOracle : RemoteOracle where
  fetchUsers := .ok [("1", "U1"), ("2", "U2")]
  fetchPosts := fun id =>
    if id == "1" then .ok [⟨1, 1, "a", none⟩, ⟨2, 1, "b", none⟩] else .error ()
  fetchComments := fun _ => .error ()

theorem per_id_failures_degrade_to_zero_witness :
    (commentCountsBatched exDegradeState exDegradeState.allPostsCache 1000
        exDegradeOracle []).2.1.lookup 2 = some 0 ∧
    (commentCountsBatched exDegradeState exDegradeState.allPostsCache 1000
        exDegradeOracle []).2.1.lookup 1 = some 4 ∧
    (∃ l, (getPopularPosts exDegradeState 1000 exDegradeOracle).1 = .ok l) ∧
    (topUsersCountsLoop exDegradeState
        (exDegradeState.usersCache.map Prod.fst) 1000 exDegradeOracle
        []).2.1.lookup "2" = some 0 ∧
    TopUser.mk "2" "U2" 0
      ∈ topUserEntries exDegradeState.usersCache
          (topUsersCountsLoop exDegradeState
            (exDegradeState.usersCache.map Prod.fst) 1000 exDegradeOracle []).2.1 ∧
    ∃ l, (getTopUsers exDegradeState 7 1000 exDegradeOracle).1 = .ok l := by
  have h := per_id_failures_degrade_to_zero exDegradeState 1000 7 exDegradeOracle 2
    "2" (by decide) (by decide)
  have h₁ := h.1 (by decide) (by decide) rfl rfl rfl (by decide)
  have h₂ := h.2 rfl (by decide) (by decide) rfl rfl
  exact ⟨h₁.1,
    (h₁.2.1 ⟨1, 1, "a", some 100⟩ (by decide) (by decide)).trans (by rfl),
    h₁.2.2, h₂.1, h₂.2.1, h₂.2.2⟩
